import Mathlib

/-!
Verification of the reconciliation core of the external-dns-simply-webhook
repository: the FQDN resolver (`ParseFQDN`), the reconciler
(`calculateChanges`, `endpointsEqual`) and the apply phase of the webhook
handlers (`ApplyChanges` and its per-endpoint operations), shallowly
embedded from the Go sources.  The repository contains several protocol
snapshots of the same handler/client pair; where two snapshots define the
same function differently, both are embedded under distinct names
(the `...R` suffix marks the reconciler snapshot living in
`pkg/simply/client.go`, the unsuffixed handler operations are the latest
`pkg/webhook/handler.go` snapshot).
-/

deriving instance DecidableEq for Except

/-! ### String helpers mirroring the Go `strings` package -/

/-- `strings.HasSuffix s suf`: `suf` is a plain (byte-wise) suffix of `s`.
Strings are compared through their character lists. -/
def hasSuffix (s suf : String) : Bool :=
  suf.data.isSuffixOf s.data

/-- `strings.TrimSuffix s suf`: drops `suf` from the end of `s` when present,
otherwise returns `s` unchanged. -/
def trimSuffix (s suf : String) : String :=
  if hasSuffix s suf then String.mk (s.data.take (s.data.length - suf.data.length)) else s

/-- Splitting a character list at `'.'` separators, as `strings.Split(s, ".")`
does: the result always has at least one (possibly empty) part. -/
def splitDots : List Char → List (List Char)
  | [] => [[]]
  | c :: cs =>
    let r := splitDots cs
    if c = '.' then [] :: r
    else
      match r with
      | [] => [[c]]
      | w :: ws => (c :: w) :: ws

/-- `strings.Split(s, ".")`. -/
def splitOnDot (s : String) : List String :=
  (splitDots s.data).map String.mk

/-- Longest decimal-digit prefix of a character list, as a number; `none`
when the list does not start with a digit. -/
def parseDigits (l : List Char) : Option Nat :=
  let ds := l.takeWhile Char.isDigit
  if ds.isEmpty then none
  else some (ds.foldl (fun acc c => acc * 10 + (c.toNat - 48)) 0)

/-- `fmt.Sscanf(s, "%d", &n)`: an optional sign followed by at least one
decimal digit; trailing characters are ignored, an unparseable head fails. -/
def sscanfInt (s : String) : Option Int :=
  match s.data with
  | '-' :: rest => (parseDigits rest).map (fun n => -(n : Int))
  | '+' :: rest => (parseDigits rest).map (fun n => (n : Int))
  | l => (parseDigits l).map (fun n => (n : Int))

/-! ### Data model -/

/-- `endpoint.ProviderSpecificProperty` from sigs.k8s.io/external-dns. -/
structure ProviderProperty where
  name : String
  value : String
deriving DecidableEq, Repr

/-- `endpoint.Endpoint` from sigs.k8s.io/external-dns, restricted to the
fields the webhook reads: DNSName, RecordType, Targets, RecordTTL and
ProviderSpecific. -/
structure Endpoint where
  dnsName : String
  recordType : String
  targets : List String
  recordTTL : Int
  providerSpecific : List ProviderProperty
deriving DecidableEq, Repr

/-- `simply.Record` in the snapshot of `pkg/simply/client.go` that uses
host/domain addressing (fields ID, Type, Host, Data, TTL, Domain). -/
structure RecordH where
  id : Int
  type : String
  host : String
  data : String
  ttl : Int
  domain : String
deriving DecidableEq, Repr

/-- `simply.Record` in the latest snapshot of `pkg/simply/client.go`
(fields ID, Type, Name, Data, TTL, Comment). -/
structure RecordC where
  id : Int
  type : String
  name : String
  data : String
  ttl : Int
  comment : String
deriving DecidableEq, Repr

/-! ### FQDN resolver (`simply.ParseFQDN`, pkg/simply/client.go) -/

/-- The `matchedDomain` accumulator loop of `ParseFQDN`:
`for _, d := range domains { if strings.HasSuffix(fqdn, d) && len(d) > len(matchedDomain) { matchedDomain = d } }`. -/
def pickDomain (fqdn : String) (domains : List String) : String :=
  domains.foldl
    (fun md d => if hasSuffix fqdn d && decide (md.length < d.length) then d else md) ""

/-- `simply.ParseFQDN`: splits an FQDN into (host, domain) given the known
domains, choosing the longest domain that is a plain string suffix of the
dot-stripped FQDN; `"@"` marks the apex, and an unmatched FQDN is returned
whole with an empty domain. -/
def ParseFQDN (fqdn0 : String) (domains : List String) : String × String :=
  let fqdn := trimSuffix fqdn0 "."
  let matchedDomain := pickDomain fqdn domains
  if matchedDomain = "" then (fqdn, "")
  else if fqdn = matchedDomain then ("@", matchedDomain)
  else (trimSuffix fqdn ("." ++ matchedDomain), matchedDomain)

/-! ### Reconciler (`calculateChanges` / `endpointsEqual`)

Both reconciler snapshots (pkg/webhook/handler.go lines 587-645 and
pkg/simply/client.go lines 621-679) define these two functions with the
same body; they are embedded once.  Go maps keyed by `"name|type"` are
modelled as last-write-wins lookups over the input list; Go's map
iteration order is unspecified, so iteration is modelled over the list of
distinct keys in first-occurrence order (every property proved about the
results is order-independent). -/

/-- The logical identity key `fmt.Sprintf("%s|%s", ep.DNSName, ep.RecordType)`. -/
def key (ep : Endpoint) : String :=
  ep.dnsName ++ "|" ++ ep.recordType

/-- Lookup in the Go map built by `for _, ep := range eps { m[key(ep)] = ep }`:
the last endpoint of `eps` carrying the key wins. -/
def mapLookup (eps : List Endpoint) (k : String) : Option Endpoint :=
  eps.reverse.find? (fun ep => key ep == k)

/-- The distinct keys of an endpoint list (the key set of the Go map). -/
def dedupKeys (eps : List Endpoint) : List String :=
  (eps.map key).dedup

/-- `endpointsEqual`: names and record types equal, target lists of equal
length with every target of `b` contained in `a`'s target set, and equal
TTLs. -/
def endpointsEqual (a b : Endpoint) : Bool :=
  if a.dnsName != b.dnsName || a.recordType != b.recordType then false
  else if a.targets.length != b.targets.length then false
  else if b.targets.all (fun t => a.targets.contains t) then a.recordTTL == b.recordTTL
  else false

/-- `calculateChanges`: one pass over the desired map producing creates
(desired key absent from current) and updates (key present but endpoints
unequal, the update carrying the current entry's ProviderSpecific), and one
pass over the current map producing deletes (current key absent from
desired).  Returns `(creates, updates, deletes)`. -/
def calculateChanges (current desired : List Endpoint) :
    List Endpoint × List Endpoint × List Endpoint :=
  let creates := (dedupKeys desired).filterMap (fun k =>
    match mapLookup desired k, mapLookup current k with
    | some dEp, none => some dEp
    | _, _ => none)
  let updates := (dedupKeys desired).filterMap (fun k =>
    match mapLookup desired k, mapLookup current k with
    | some dEp, some cEp =>
      if endpointsEqual cEp dEp then none
      else some { dEp with providerSpecific := cEp.providerSpecific }
    | _, _ => none)
  let deletes := (dedupKeys current).filterMap (fun k =>
    match mapLookup current k, mapLookup desired k with
    | some cEp, none => some cEp
    | _, _ => none)
  (creates, updates, deletes)

/-! ### Witness inputs for the reconciler claims -/

/-- Concrete current endpoint used by the C5 witness. -/
def c5cur : Endpoint :=
  { dnsName := "a.example.com", recordType := "A", targets := ["1.1.1.1"],
    recordTTL := 300,
    providerSpecific := [{ name := "simply-record-id", value := "42" }] }

/-- Concrete desired endpoint used by the C5 witness. -/
def c5des : Endpoint :=
  { dnsName := "a.example.com", recordType := "A", targets := ["2.2.2.2"],
    recordTTL := 300, providerSpecific := [] }

/-- The update endpoint `calculateChanges [c5cur] [c5des]` produces. -/
def c5upd : Endpoint :=
  { c5des with providerSpecific := c5cur.providerSpecific }

/-- Concrete input lists for the C9 witness. -/
def c9cur : List Endpoint :=
  [{ dnsName := "a.example.com", recordType := "A", targets := ["1.1.1.1"],
     recordTTL := 300,
     providerSpecific := [{ name := "simply-record-id", value := "42" }] },
   { dnsName := "b.example.com", recordType := "A", targets := ["5.6.7.8"],
     recordTTL := 300, providerSpecific := [] }]

/-- Concrete desired list for the C9 witness. -/
def c9des : List Endpoint :=
  [{ dnsName := "a.example.com", recordType := "A", targets := ["2.2.2.2"],
     recordTTL := 300, providerSpecific := [] },
   { dnsName := "c.example.com", recordType := "A", targets := ["9.9.9.9"],
     recordTTL := 300, providerSpecific := [] }]

/-- The create endpoint of the C9 witness scenario. -/
def c9new : Endpoint :=
  { dnsName := "c.example.com", recordType := "A", targets := ["9.9.9.9"],
    recordTTL := 300, providerSpecific := [] }

/-! ### Apply phase of the reconciler-based `ApplyChanges`
(pkg/simply/client.go lines 506-538): deletions first, then updates, then
creates, each loop aborting the whole handler on the first error. -/

/-- The three apply phases of the reconciler-based `ApplyChanges`. -/
inductive Phase where
  | del : Phase
  | upd : Phase
  | cre : Phase
deriving DecidableEq, Repr

/-- Position of a phase in the apply order of the reconciler-based
`ApplyChanges` (deletes, then updates, then creates). -/
def phaseRank : Phase → Nat
  | .del => 0
  | .upd => 1
  | .cre => 2

/-- The sequence of per-endpoint operations the reconciler-based
`ApplyChanges` issues for a change request: the deletes loop, then the
updates loop, then the creates loop over the `calculateChanges` output. -/
def reconcilerSeq (current desired : List Endpoint) : List (Phase × Endpoint) :=
  let r := calculateChanges current desired
  (r.2.2.map fun ep => (Phase.del, ep)) ++ (r.2.1.map fun ep => (Phase.upd, ep)) ++
    (r.1.map fun ep => (Phase.cre, ep))

/-- The three sequential `for` loops of `ApplyChanges`, folded into one:
each operation's outcome is given by the oracle `res` (standing for the
per-endpoint helper including its remote call); the first error stops the
loop, returning the operations issued so far (the failing one included)
and the error. -/
def applyLoop (res : Phase → Endpoint → Except String Unit) :
    List (Phase × Endpoint) → List (Phase × Endpoint) × Option String
  | [] => ([], none)
  | op :: rest =>
    match res op.1 op.2 with
    | .error e => ([op], some e)
    | .ok _ =>
      let r := applyLoop res rest
      (op :: r.1, r.2)

/-- The apply phase of the reconciler-based `ApplyChanges`: compute the
changes and run the delete/update/create loops in order. -/
def ApplyChangesRun (res : Phase → Endpoint → Except String Unit)
    (current desired : List Endpoint) : List (Phase × Endpoint) × Option String :=
  applyLoop res (reconcilerSeq current desired)

/-- Current-side endpoint of the C1 type-change scenario (an `A` record). -/
def c1curA : Endpoint :=
  { dnsName := "host.example.com", recordType := "A", targets := ["1.2.3.4"],
    recordTTL := 300,
    providerSpecific := [{ name := "simply-record-id", value := "7" }] }

/-- Desired-side endpoint of the C1 type-change scenario (a `CNAME`). -/
def c1desC : Endpoint :=
  { dnsName := "host.example.com", recordType := "CNAME",
    targets := ["tgt.example.com"], recordTTL := 300, providerSpecific := [] }

/-- Oracle for the C7 witness: every update fails, other operations succeed. -/
def c7res : Phase → Endpoint → Except String Unit
  | Phase.upd, _ => Except.error "boom"
  | _, _ => Except.ok ()

/-- Current state for the C7 witness: one record to update, one to delete. -/
def c7cur : List Endpoint :=
  [{ dnsName := "a.example.com", recordType := "A", targets := ["1.1.1.1"],
     recordTTL := 300,
     providerSpecific := [{ name := "simply-record-id", value := "42" }] },
   { dnsName := "b.example.com", recordType := "A", targets := ["5.6.7.8"],
     recordTTL := 300, providerSpecific := [] }]

/-- Desired state for the C7 witness. -/
def c7des : List Endpoint :=
  [{ dnsName := "a.example.com", recordType := "A", targets := ["2.2.2.2"],
     recordTTL := 300, providerSpecific := [] }]

/-! ### Per-endpoint operations of the latest pkg/webhook/handler.go
snapshot, and its array-based `ApplyChanges`.  The remote client calls
(`AddRecord(domain, record)` etc.) are modelled by the values sent; Go's
`ep.Targets[0]` on an empty slice is a runtime panic, modelled as `none`. -/

/-- Handler constant `DefaultTTL = 3600`. -/
def DefaultTTL : Int := 3600

/-- Handler constant `DefaultComment = "Managed by External-DNS"`. -/
def DefaultComment : String := "Managed by External-DNS"

/-- `extractDomain`: the last two dot-separated labels of the DNS name;
fewer than two labels is an invalid name. -/
def extractDomain (dnsName : String) : Except String String :=
  let parts := splitOnDot dnsName
  if parts.length < 2 then Except.error ("invalid DNS name: " ++ dnsName)
  else Except.ok (String.intercalate "." (parts.drop (parts.length - 2)))

/-- `createEndpoint` (latest handler snapshot): resolve the domain, default
a zero TTL to `DefaultTTL`, and send one `AddRecord(domain, record)` per
target; the returned list is the sequence of records sent. -/
def createEndpoint (ep : Endpoint) : Except String (List (String × RecordC)) :=
  match extractDomain ep.dnsName with
  | Except.error e => Except.error e
  | Except.ok domain =>
    let ttl := if ep.recordTTL == 0 then DefaultTTL else ep.recordTTL
    Except.ok (ep.targets.map fun target =>
      (domain, { id := 0, type := ep.recordType, name := ep.dnsName,
                 data := target, ttl := ttl, comment := DefaultComment }))

/-- `updateEndpoint` (latest handler snapshot): resolve the domain, reject
an empty target list, default a zero TTL, and send one
`UpdateRecord(domain, record)` with the first target.  The outer `none`
marks the unreachable `ep.Targets[0]` panic. -/
def updateEndpoint (ep : Endpoint) (recordID : Int) :
    Option (Except String (String × RecordC)) :=
  match extractDomain ep.dnsName with
  | Except.error e => some (Except.error e)
  | Except.ok domain =>
    if ep.targets.length == 0 then some (Except.error "no targets specified for update")
    else
      let ttl := if ep.recordTTL == 0 then DefaultTTL else ep.recordTTL
      match ep.targets.head? with
      | none => none
      | some t0 =>
        some (Except.ok (domain,
          { id := recordID, type := ep.recordType, name := ep.dnsName,
            data := t0, ttl := ttl, comment := DefaultComment }))

/-- `deleteEndpoint` (latest handler snapshot): resolve the domain and send
`DeleteRecord(domain, record)` built with `ep.Targets[0]` — the Go code
indexes the first target without any emptiness check, so an empty target
list is a runtime panic (`none`). -/
def deleteEndpoint (ep : Endpoint) (recordID : Int) :
    Option (Except String (String × RecordC)) :=
  match extractDomain ep.dnsName with
  | Except.error e => some (Except.error e)
  | Except.ok domain =>
    match ep.targets.head? with
    | none => none
    | some t0 =>
      some (Except.ok (domain,
        { id := recordID, type := ep.recordType, name := ep.dnsName,
          data := t0, ttl := ep.recordTTL, comment := DefaultComment }))

/-- A remote call of the latest `simply.Client` snapshot. -/
inductive SimplyCall where
  | add : String → RecordC → SimplyCall
  | upd : String → RecordC → SimplyCall
  | del : String → RecordC → SimplyCall
deriving DecidableEq, Repr

/-- Lookup in the `recordMap` the handler builds from the listed remote
records, keyed `"dnsName:recordType"`; last write wins. -/
def lookupRecordMap (m : List (String × RecordC)) (k : String) : Option RecordC :=
  (m.reverse.find? (fun p => p.1 == k)).map (fun p => p.2)

/-- The target-comparison loop of the update-change detection:
`for j, oldTarget := range oldEp.Targets { if j >= len(newEp.Targets) || oldTarget != newEp.Targets[j] { ... } }`. -/
def targetsChanged : List String → List String → Bool
  | [], _ => false
  | _ :: _, [] => true
  | o :: os, n :: ns => if o != n then true else targetsChanged os ns

/-- The `hasChanges` detection of the array-based `ApplyChanges`: type
change, TTL change, or positional target difference. -/
def hasChangesB (oldEp newEp : Endpoint) : Bool :=
  if oldEp.recordType != newEp.recordType then true
  else if oldEp.recordTTL != newEp.recordTTL then true
  else targetsChanged oldEp.targets newEp.targets

/-- The creates loop of the array-based `ApplyChanges`: each endpoint's
records are sent via `AddRecord`; the first error aborts the loop. -/
def processCreates : List Endpoint → Option (List SimplyCall × Option String)
  | [] => some ([], none)
  | ep :: rest =>
    match createEndpoint ep with
    | Except.error e => some ([], some ("Failed to create record: " ++ e))
    | Except.ok calls =>
      match processCreates rest with
      | none => none
      | some (cs, err) =>
        some ((calls.map fun c => SimplyCall.add c.1 c.2) ++ cs, err)

/-- The updates loop of the array-based `ApplyChanges`: pairs `UpdateNew[i]`
with `UpdateOld[i]` (`none` models the index-out-of-range panic when
UpdateOld is shorter), skips pairs without actual changes, fails hard when
the record is not in the map, and aborts on the first error. -/
def processUpdates (recordMap : List (String × RecordC)) :
    List Endpoint → List Endpoint → Option (List SimplyCall × Option String)
  | [], _ => some ([], none)
  | _ :: _, [] => none
  | newEp :: ns, oldEp :: os =>
    if hasChangesB oldEp newEp = false then processUpdates recordMap ns os
    else
      match lookupRecordMap recordMap (newEp.dnsName ++ ":" ++ newEp.recordType) with
      | none =>
        some ([], some ("Record not found: " ++ newEp.dnsName ++ ":" ++ newEp.recordType))
      | some existing =>
        match updateEndpoint newEp existing.id with
        | none => none
        | some (Except.error e) => some ([], some ("Failed to update record: " ++ e))
        | some (Except.ok (domain, rec)) =>
          match processUpdates recordMap ns os with
          | none => none
          | some (cs, err) => some (SimplyCall.upd domain rec :: cs, err)

/-- The deletes loop of the array-based `ApplyChanges`: an endpoint whose
key is not in the record map is SKIPPED with a warning and the loop
continues; otherwise the delete is sent and the first error aborts. -/
def processDeletes (recordMap : List (String × RecordC)) :
    List Endpoint → Option (List SimplyCall × Option String)
  | [] => some ([], none)
  | ep :: rest =>
    match lookupRecordMap recordMap (ep.dnsName ++ ":" ++ ep.recordType) with
    | none => processDeletes recordMap rest
    | some existing =>
      match deleteEndpoint ep existing.id with
      | none => none
      | some (Except.error e) => some ([], some ("Failed to delete record: " ++ e))
      | some (Except.ok (domain, rec)) =>
        match processDeletes recordMap rest with
        | none => none
        | some (cs, err) => some (SimplyCall.del domain rec :: cs, err)

/-- The change request of the array-based webhook contract. -/
structure ChangesReq where
  create : List Endpoint
  updateOld : List Endpoint
  updateNew : List Endpoint
  delete : List Endpoint
deriving DecidableEq, Repr

/-- The array-based `ApplyChanges` of the latest handler snapshot
(pkg/webhook/handler.go lines 117-235): given the record map built from
the listed remote records, process the creates, then the updates, then the
deletes, stopping at the first error; returns the issued remote calls in
order and the surfaced error, `none` for a runtime panic. -/
def ApplyChangesWebhook (recordMap : List (String × RecordC)) (changes : ChangesReq) :
    Option (List SimplyCall × Option String) :=
  match processCreates changes.create with
  | none => none
  | some (cs, some e) => some (cs, some e)
  | some (cs, none) =>
    match processUpdates recordMap changes.updateNew changes.updateOld with
    | none => none
    | some (us, some e) => some (cs ++ us, some e)
    | some (us, none) =>
      match processDeletes recordMap changes.delete with
      | none => none
      | some (ds, some e) => some (cs ++ us ++ ds, some e)
      | some (ds, none) => some (cs ++ us ++ ds, none)

/-! ### Record-identity handling of the reconciler snapshot
(pkg/simply/client.go lines 725-794) and of unnamed part_001. -/

/-- The record-ID extraction loop of the reconciler snapshot:
`recordID := 0; for ... if prop.Name == "simply-record-id" { fmt.Sscanf(prop.Value, "%d", &recordID); break }`;
an absent property or an unparseable value leaves the ID at `0`. -/
def parseRecordID (ps : List ProviderProperty) : Int :=
  match ps.find? (fun p => p.name == "simply-record-id") with
  | none => 0
  | some p => (sscanfInt p.value).getD 0

/-- `getRecordID` of the unnamed part_001 handler snapshot: a missing
property or an unparseable value is a hard error. -/
def getRecordID (ep : Endpoint) : Except String Int :=
  match ep.providerSpecific.find? (fun p => p.name == "simply-record-id") with
  | some ps =>
    match sscanfInt ps.value with
    | some n => Except.ok n
    | none => Except.error ("invalid record ID: " ++ ps.value)
  | none => Except.error "simply-record-id not found in providerSpecific"

/-- `deleteEndpoint` of the reconciler snapshot: domain via `ParseFQDN`,
record ID from ProviderSpecific, `recordID == 0` is a hard error; on
success the `DeleteRecord(recordID, domain)` arguments are returned. -/
def deleteEndpointR (ep : Endpoint) (domains : List String) :
    Except String (Int × String) :=
  let pr := ParseFQDN ep.dnsName domains
  if pr.2 == "" then Except.error ("could not determine domain for " ++ ep.dnsName)
  else
    let recordID := parseRecordID ep.providerSpecific
    if recordID == 0 then Except.error ("record ID not found for " ++ ep.dnsName)
    else Except.ok (recordID, pr.2)

/-- `updateEndpoint` of the reconciler snapshot: domain via `ParseFQDN`,
record ID from ProviderSpecific (zero is a hard error), empty target list
is a hard error; on success the `UpdateRecord` record is returned. -/
def updateEndpointR (ep : Endpoint) (domains : List String) :
    Except String RecordH :=
  let pr := ParseFQDN ep.dnsName domains
  if pr.2 == "" then Except.error ("could not determine domain for " ++ ep.dnsName)
  else
    let recordID := parseRecordID ep.providerSpecific
    if recordID == 0 then Except.error ("record ID not found for " ++ ep.dnsName)
    else if ep.targets.length == 0 then
      Except.error ("no targets specified for " ++ ep.dnsName)
    else
      Except.ok { id := recordID, type := ep.recordType, host := pr.1,
                  data := ep.targets.headD "", ttl := ep.recordTTL, domain := pr.2 }

/-- Whether an `Except` result is an error. -/
def exceptFailed {α : Type} (r : Except String α) : Bool :=
  match r with
  | Except.error _ => true
  | Except.ok _ => false

/-- Whether a remote call is a delete. -/
def callIsDel : SimplyCall → Bool
  | SimplyCall.del _ _ => true
  | _ => false

/-- Whether a remote call is a create. -/
def callIsAdd : SimplyCall → Bool
  | SimplyCall.add _ _ => true
  | _ => false

/-- Every delete in the call sequence precedes every create. -/
def deletesPrecedeCreates (calls : List SimplyCall) : Prop :=
  ∀ i j (hi : i < calls.length) (hj : j < calls.length),
    callIsDel (calls.get ⟨i, hi⟩) = true → callIsAdd (calls.get ⟨j, hj⟩) = true → i < j

/-! ### Concrete inputs for the webhook-variant counterexamples -/

/-- Record map for the C1 counterexample: the existing `A` record. -/
def c1rm : List (String × RecordC) :=
  [("host.example.com:A",
    { id := 11, type := "A", name := "host", data := "1.2.3.4", ttl := 300,
      comment := "" })]

/-- Delete request of the C1 type-change batch. -/
def c1delA : Endpoint :=
  { dnsName := "host.example.com", recordType := "A", targets := ["1.2.3.4"],
    recordTTL := 300, providerSpecific := [] }

/-- The C1 type-change batch as the array-based contract delivers it:
create the CNAME, delete the A record. -/
def c1changes : ChangesReq :=
  { create := [c1desC], updateOld := [], updateNew := [], delete := [c1delA] }

/-- The calls the array-based `ApplyChanges` issues for `c1changes`. -/
def c1calls : List SimplyCall :=
  [SimplyCall.add "example.com"
    { id := 0, type := "CNAME", name := "host.example.com",
      data := "tgt.example.com", ttl := 300, comment := "Managed by External-DNS" },
   SimplyCall.del "example.com"
    { id := 11, type := "A", name := "host.example.com",
      data := "1.2.3.4", ttl := 300, comment := "Managed by External-DNS" }]

/-! ### C6: unresolvable record identity -/

/-- Record map for the C6 scenario: only `b.example.com:A` exists remotely. -/
def c6rm : List (String × RecordC) :=
  [("b.example.com:A",
    { id := 5, type := "A", name := "b", data := "5.6.7.8", ttl := 300,
      comment := "" })]

/-- A delete request with no matching remote record. -/
def c6ghost : Endpoint :=
  { dnsName := "ghost.example.com", recordType := "A", targets := ["9.9.9.9"],
    recordTTL := 300, providerSpecific := [] }

/-- A delete request whose record exists in the map. -/
def c6b : Endpoint :=
  { dnsName := "b.example.com", recordType := "A", targets := ["5.6.7.8"],
    recordTTL := 300, providerSpecific := [] }

/-- The C6 batch: two deletes, the first without a matching remote record. -/
def c6changes : ChangesReq :=
  { create := [], updateOld := [], updateNew := [], delete := [c6ghost, c6b] }

/-- The record the run sends for the second delete. -/
def c6recBsent : RecordC :=
  { id := 5, type := "A", name := "b.example.com", data := "5.6.7.8",
    ttl := 300, comment := "Managed by External-DNS" }

/-- An endpoint with no `simply-record-id` property, for the C6 witness. -/
def c6noid : Endpoint :=
  { dnsName := "a.example.com", recordType := "A", targets := ["1.1.1.1"],
    recordTTL := 300, providerSpecific := [] }

/-- A zero-TTL endpoint for the C8 witness. -/
def c8ep : Endpoint :=
  { dnsName := "www.example.com", recordType := "A", targets := ["1.2.3.4"],
    recordTTL := 0, providerSpecific := [] }

/-- The record `createEndpoint` sends for `c8ep`. -/
def c8calls : List (String × RecordC) :=
  [("example.com",
    { id := 0, type := "A", name := "www.example.com", data := "1.2.3.4",
      ttl := 3600, comment := "Managed by External-DNS" })]

/-! ### C10: empty target lists in the apply operations -/

/-- An endpoint with an empty target list. -/
def c10ep : Endpoint :=
  { dnsName := "a.example.com", recordType := "A", targets := [],
    recordTTL := 300, providerSpecific := [] }

/-! ### Witnesses for the universally quantified confirmed claims -/

/-- Concrete endpoint list for the C3 witness. -/
def c3S : List Endpoint :=
  [{ dnsName := "a.example.com", recordType := "A", targets := ["1.1.1.1"],
     recordTTL := 300,
     providerSpecific := [{ name := "simply-record-id", value := "42" }] },
   { dnsName := "b.example.com", recordType := "TXT", targets := ["x", "y"],
     recordTTL := 0, providerSpecific := [] }]

/-! ### Facts about `pickDomain` -/

/-! ### The array-based `ApplyChanges` run against remote outcomes
`ApplyChangesWebhook` above is the planning view in which every remote
call succeeds; the `...Run` functions below are the same Go loops with the
outcome of each remote call supplied by an oracle `rres`, so that a failing
`AddRecord`/`UpdateRecord`/`DeleteRecord` call aborts exactly as in the
source.  Each per-endpoint helper wraps the client error
(`fmt.Errorf("failed to ... record: %w", err)`) and the handler loop wraps
that again (`"Failed to ... record: %v"`) before returning, so a remote
error string survives as a suffix of the surfaced error. -/

/-- Remote calls issued in order until the first failure: the failing call
is included in the issued list and its error is returned.  This is the
`for _, target := range ep.Targets { ... if err := h.Client.AddRecord(...); err != nil { return ... } }`
loop of `createEndpoint` (and the degenerate one-call case of
update/delete). -/
def callLoop (rres : SimplyCall → Except String Unit) :
    List SimplyCall → List SimplyCall × Option String
  | [] => ([], none)
  | c :: rest =>
    match rres c with
    | Except.error e => ([c], some e)
    | Except.ok _ =>
      let r := callLoop rres rest
      (c :: r.1, r.2)

/-- The creates loop of the array-based `ApplyChanges` with remote
outcomes: `createEndpoint` issues its `AddRecord` calls in order; a remote
failure is wrapped (`failed to add record:` inside `createEndpoint`, then
`Failed to create record:` in the loop) and aborts everything. -/
def processCreatesRun (rres : SimplyCall → Except String Unit) :
    List Endpoint → List SimplyCall × Option String
  | [] => ([], none)
  | ep :: rest =>
    match createEndpoint ep with
    | Except.error e => ([], some ("Failed to create record: " ++ e))
    | Except.ok recs =>
      match callLoop rres (recs.map fun c => SimplyCall.add c.1 c.2) with
      | (issued, some e) =>
        (issued, some ("Failed to create record: " ++ ("failed to add record: " ++ e)))
      | (issued, none) =>
        let rr := processCreatesRun rres rest
        (issued ++ rr.1, rr.2)

/-- The updates loop of the array-based `ApplyChanges` with remote
outcomes: as `processUpdates`, but the prepared `UpdateRecord` call is run
through `rres`; a remote failure is wrapped (`failed to update record:`
inside `updateEndpoint`, then `Failed to update record:` in the loop) and
aborts the batch before any later iteration runs. -/
def processUpdatesRun (rres : SimplyCall → Except String Unit)
    (recordMap : List (String × RecordC)) :
    List Endpoint → List Endpoint → Option (List SimplyCall × Option String)
  | [], _ => some ([], none)
  | _ :: _, [] => none
  | newEp :: ns, oldEp :: os =>
    if hasChangesB oldEp newEp = false then processUpdatesRun rres recordMap ns os
    else
      match lookupRecordMap recordMap (newEp.dnsName ++ ":" ++ newEp.recordType) with
      | none =>
        some ([], some ("Record not found: " ++ newEp.dnsName ++ ":" ++ newEp.recordType))
      | some existing =>
        match updateEndpoint newEp existing.id with
        | none => none
        | some (Except.error e) => some ([], some ("Failed to update record: " ++ e))
        | some (Except.ok (domain, rec)) =>
          match rres (SimplyCall.upd domain rec) with
          | Except.error e =>
            some ([SimplyCall.upd domain rec],
              some ("Failed to update record: " ++ ("failed to update record: " ++ e)))
          | Except.ok _ =>
            match processUpdatesRun rres recordMap ns os with
            | none => none
            | some (cs, err) => some (SimplyCall.upd domain rec :: cs, err)

/-- The deletes loop of the array-based `ApplyChanges` with remote
outcomes: as `processDeletes` (missing map keys are still skipped), but
the prepared `DeleteRecord` call is run through `rres`; a remote failure
is wrapped (`failed to delete record:` inside `deleteEndpoint`, then
`Failed to delete record:` in the loop) and aborts the batch. -/
def processDeletesRun (rres : SimplyCall → Except String Unit)
    (recordMap : List (String × RecordC)) :
    List Endpoint → Option (List SimplyCall × Option String)
  | [] => some ([], none)
  | ep :: rest =>
    match lookupRecordMap recordMap (ep.dnsName ++ ":" ++ ep.recordType) with
    | none => processDeletesRun rres recordMap rest
    | some existing =>
      match deleteEndpoint ep existing.id with
      | none => none
      | some (Except.error e) => some ([], some ("Failed to delete record: " ++ e))
      | some (Except.ok (domain, rec)) =>
        match rres (SimplyCall.del domain rec) with
        | Except.error e =>
          some ([SimplyCall.del domain rec],
            some ("Failed to delete record: " ++ ("failed to delete record: " ++ e)))
        | Except.ok _ =>
          match processDeletesRun rres recordMap rest with
          | none => none
          | some (cs, err) => some (SimplyCall.del domain rec :: cs, err)

/-- The array-based `ApplyChanges` of the latest handler snapshot run
against remote outcomes `rres`: creates, then updates, then deletes, the
first surfaced error (local or remote) aborting the remaining loops;
returns the remote calls issued in order and the surfaced error, `none`
for a runtime panic.  With the all-success oracle this coincides with
`ApplyChangesWebhook` (see `applyChangesWebhookRun_allOk`). -/
def ApplyChangesWebhookRun (rres : SimplyCall → Except String Unit)
    (recordMap : List (String × RecordC)) (changes : ChangesReq) :
    Option (List SimplyCall × Option String) :=
  match processCreatesRun rres changes.create with
  | (cs, some e) => some (cs, some e)
  | (cs, none) =>
    match processUpdatesRun rres recordMap changes.updateNew changes.updateOld with
    | none => none
    | some (us, some e) => some (cs ++ us, some e)
    | some (us, none) =>
      match processDeletesRun rres recordMap changes.delete with
      | none => none
      | some (ds, some e) => some (cs ++ us ++ ds, some e)
      | some (ds, none) => some (cs ++ us ++ ds, none)

/-- The first-failure discipline of an issued call sequence: every issued
call before the last one succeeded (so a failing call is always the last
attempted — nothing after it is issued, and the calls before it remain
applied); if the last issued call failed, its remote error survives as a
suffix of the surfaced error; and when no error is surfaced, every issued
call succeeded. -/
def firstFailureAborts (rres : SimplyCall → Except String Unit)
    (calls : List SimplyCall) (err : Option String) : Prop :=
  (∀ c ∈ calls.dropLast, rres c = Except.ok ()) ∧
  (∀ cL e0, calls.getLast? = some cL → rres cL = Except.error e0 →
    ∃ e, err = some e ∧ hasSuffix e e0 = true) ∧
  (err = none → ∀ c ∈ calls, rres c = Except.ok ())

/-- Oracle for the C7 witness on the array-based handler: every remote
`DeleteRecord` fails, other calls succeed. -/
def c7rres : SimplyCall → Except String Unit
  | SimplyCall.del _ _ => Except.error "remote boom"
  | _ => Except.ok ()

lemma pickDomain_loop_mem (fqdn : String) (domains : List String) (acc : String) :
    domains.foldl
      (fun md d => if hasSuffix fqdn d && decide (md.length < d.length) then d else md) acc = acc ∨
    (domains.foldl
      (fun md d => if hasSuffix fqdn d && decide (md.length < d.length) then d else md) acc ∈ domains ∧
     hasSuffix fqdn (domains.foldl
      (fun md d => if hasSuffix fqdn d && decide (md.length < d.length) then d else md) acc) = true) := by
  induction domains generalizing acc with
  | nil => exact Or.inl rfl
  | cons d ds ih =>
    simp only [List.foldl_cons]
    by_cases hc : (hasSuffix fqdn d && decide (acc.length < d.length)) = true
    · rw [if_pos hc]
      rcases ih d with h | h
      · right
        refine ⟨?_, ?_⟩
        · rw [h]; exact List.mem_cons_self d ds
        · rw [h]
          exact (Bool.and_eq_true _ _ ▸ hc).1
      · exact Or.inr ⟨List.mem_cons_of_mem _ h.1, h.2⟩
    · rw [if_neg hc]
      rcases ih acc with h | h
      · exact Or.inl h
      · exact Or.inr ⟨List.mem_cons_of_mem _ h.1, h.2⟩

lemma pickDomain_loop_length_le (fqdn : String) (domains : List String) (acc : String) :
    acc.length ≤ (domains.foldl
      (fun md d => if hasSuffix fqdn d && decide (md.length < d.length) then d else md) acc).length := by
  induction domains generalizing acc with
  | nil => exact Nat.le_refl _
  | cons d ds ih =>
    simp only [List.foldl_cons]
    by_cases hc : (hasSuffix fqdn d && decide (acc.length < d.length)) = true
    · rw [if_pos hc]
      have hlt : acc.length < d.length := by
        have := (Bool.and_eq_true _ _ ▸ hc).2
        exact of_decide_eq_true this
      exact Nat.le_trans (Nat.le_of_lt hlt) (ih d)
    · rw [if_neg hc]
      exact ih acc

lemma pickDomain_loop_longest (fqdn : String) (domains : List String) (acc : String) :
    ∀ d ∈ domains, hasSuffix fqdn d = true →
      d.length ≤ (domains.foldl
        (fun md d => if hasSuffix fqdn d && decide (md.length < d.length) then d else md) acc).length := by
  induction domains generalizing acc with
  | nil => intro d hd; exact absurd hd (List.not_mem_nil d)
  | cons d0 ds ih =>
    intro d hd hsuf
    simp only [List.foldl_cons]
    rcases List.mem_cons.mp hd with rfl | hmem
    · by_cases hc : (hasSuffix fqdn d && decide (acc.length < d.length)) = true
      · rw [if_pos hc]
        exact pickDomain_loop_length_le fqdn ds d
      · rw [if_neg hc]
        have : ¬ (decide (acc.length < d.length) = true) := by
          intro hb; exact hc (by simp [hsuf, hb])
        have hle : d.length ≤ acc.length := by
          rcases Nat.lt_or_ge acc.length d.length with h | h
          · exact absurd (decide_eq_true h) this
          · exact h
        exact Nat.le_trans hle (pickDomain_loop_length_le fqdn ds acc)
    · by_cases hc : (hasSuffix fqdn d0 && decide (acc.length < d0.length)) = true
      · rw [if_pos hc]; exact ih d0 d hmem hsuf
      · rw [if_neg hc]; exact ih acc d hmem hsuf

lemma pickDomain_spec (fqdn : String) (domains : List String) :
    (pickDomain fqdn domains = "" ∨
      (pickDomain fqdn domains ∈ domains ∧ hasSuffix fqdn (pickDomain fqdn domains) = true)) ∧
    (∀ d ∈ domains, hasSuffix fqdn d = true → d.length ≤ (pickDomain fqdn domains).length) := by
  exact ⟨pickDomain_loop_mem fqdn domains "", pickDomain_loop_longest fqdn domains ""⟩

/-! ### Map-lookup facts -/

lemma mapLookup_eq_none_iff (eps : List Endpoint) (k : String) :
    mapLookup eps k = none ↔ k ∉ eps.map key := by
  unfold mapLookup
  rw [List.find?_eq_none]
  constructor
  · intro h hk
    rcases List.mem_map.mp hk with ⟨ep, hep, rfl⟩
    exact h ep (List.mem_reverse.mpr hep) (by simp)
  · intro h ep hep hbeq
    exact h (List.mem_map.mpr ⟨ep, List.mem_reverse.mp hep, beq_iff_eq.mp hbeq⟩)

lemma mapLookup_isSome_of_mem (eps : List Endpoint) (k : String)
    (h : k ∈ eps.map key) : ∃ ep, mapLookup eps k = some ep := by
  cases hl : mapLookup eps k with
  | none => exact absurd h ((mapLookup_eq_none_iff eps k).mp hl)
  | some ep => exact ⟨ep, rfl⟩

lemma mapLookup_some_mem (eps : List Endpoint) (k : String) (ep : Endpoint)
    (h : mapLookup eps k = some ep) : ep ∈ eps ∧ key ep = k := by
  unfold mapLookup at h
  refine ⟨List.mem_reverse.mp (List.mem_of_find?_eq_some h), ?_⟩
  have hp := List.find?_some h
  exact beq_iff_eq.mp hp

lemma endpointsEqual_refl (ep : Endpoint) : endpointsEqual ep ep = true := by
  unfold endpointsEqual
  simp [List.all_eq_true, List.elem_eq_true_of_mem]

/-- C3 helper: every key of the deduplicated key list resolves in the map. -/
lemma mapLookup_of_mem_dedupKeys (eps : List Endpoint) (k : String)
    (h : k ∈ dedupKeys eps) : ∃ ep, mapLookup eps k = some ep :=
  mapLookup_isSome_of_mem eps k (List.mem_dedup.mp h)

/-- C3: diffing an endpoint set against itself yields no creates, no
updates and no deletes (`diff(S, S) = ([], [], [])`). -/
theorem calculateChanges_self_empty (S : List Endpoint) :
    calculateChanges S S = ([], [], []) := by
  unfold calculateChanges
  refine Prod.ext ?_ (Prod.ext ?_ ?_) <;> simp only
  · rw [List.filterMap_eq_nil_iff]
    intro k hk
    rcases mapLookup_of_mem_dedupKeys S k hk with ⟨ep, hep⟩
    rw [hep]
  · rw [List.filterMap_eq_nil_iff]
    intro k hk
    rcases mapLookup_of_mem_dedupKeys S k hk with ⟨ep, hep⟩
    rw [hep]
    simp [endpointsEqual_refl]
  · rw [List.filterMap_eq_nil_iff]
    intro k hk
    rcases mapLookup_of_mem_dedupKeys S k hk with ⟨ep, hep⟩
    rw [hep]

/-! ### Inversion lemmas for `calculateChanges` -/

lemma key_set_providerSpecific (ep : Endpoint) (ps : List ProviderProperty) :
    key { ep with providerSpecific := ps } = key ep := rfl

lemma calculateChanges_creates_inv (current desired : List Endpoint) (ep : Endpoint)
    (h : ep ∈ (calculateChanges current desired).1) :
    mapLookup desired (key ep) = some ep ∧ mapLookup current (key ep) = none ∧
      key ep ∈ dedupKeys desired := by
  unfold calculateChanges at h
  simp only at h
  rcases List.mem_filterMap.mp h with ⟨k, hk, hf⟩
  cases hd : mapLookup desired k with
  | none => rw [hd] at hf; simp at hf
  | some dEp =>
    cases hc : mapLookup current k with
    | none =>
      rw [hd, hc] at hf
      have hf2 : (some dEp : Option Endpoint) = some ep := hf
      simp only [Option.some.injEq] at hf2
      have hkey : key ep = k := hf2 ▸ (mapLookup_some_mem desired k dEp hd).2
      rw [hkey]
      exact ⟨hf2 ▸ hd, hc, hk⟩
    | some cEp => rw [hd, hc] at hf; simp at hf

lemma calculateChanges_updates_inv (current desired : List Endpoint) (ep : Endpoint)
    (h : ep ∈ (calculateChanges current desired).2.1) :
    ∃ dEp cEp, mapLookup desired (key ep) = some dEp ∧
      mapLookup current (key ep) = some cEp ∧
      endpointsEqual cEp dEp = false ∧
      ep = { dEp with providerSpecific := cEp.providerSpecific } ∧
      key ep ∈ dedupKeys desired := by
  unfold calculateChanges at h
  simp only at h
  rcases List.mem_filterMap.mp h with ⟨k, hk, hf⟩
  cases hd : mapLookup desired k with
  | none => rw [hd] at hf; simp at hf
  | some dEp =>
    cases hc : mapLookup current k with
    | none => rw [hd, hc] at hf; simp at hf
    | some cEp =>
      rw [hd, hc] at hf
      have hf2 : (if endpointsEqual cEp dEp = true then (none : Option Endpoint)
          else some { dEp with providerSpecific := cEp.providerSpecific }) = some ep := hf
      by_cases he : endpointsEqual cEp dEp = true
      · rw [if_pos he] at hf2; simp at hf2
      · rw [if_neg he] at hf2
        simp only [Option.some.injEq] at hf2
        have hkey : key ep = k := by
          rw [← hf2]
          exact (mapLookup_some_mem desired k dEp hd).2
        rw [hkey]
        exact ⟨dEp, cEp, hd, hc, Bool.eq_false_iff.mpr he, hf2.symm, hk⟩

lemma calculateChanges_deletes_inv (current desired : List Endpoint) (ep : Endpoint)
    (h : ep ∈ (calculateChanges current desired).2.2) :
    mapLookup current (key ep) = some ep ∧ mapLookup desired (key ep) = none ∧
      key ep ∈ dedupKeys current := by
  unfold calculateChanges at h
  simp only at h
  rcases List.mem_filterMap.mp h with ⟨k, hk, hf⟩
  cases hc : mapLookup current k with
  | none => rw [hc] at hf; simp at hf
  | some cEp =>
    cases hd : mapLookup desired k with
    | none =>
      rw [hc, hd] at hf
      have hf2 : (some cEp : Option Endpoint) = some ep := hf
      simp only [Option.some.injEq] at hf2
      have hkey : key ep = k := hf2 ▸ (mapLookup_some_mem current k cEp hc).2
      rw [hkey]
      exact ⟨hf2 ▸ hc, hd, hk⟩
    | some dEp => rw [hc, hd] at hf; simp at hf

/-- C9: the three output lists of `calculateChanges` partition the affected
logical keys: creates are keyed in desired but not current, updates in
both, deletes in current but not desired, and no key appears in two of the
three lists. -/
theorem calculateChanges_key_partition (current desired : List Endpoint) :
    (∀ ep ∈ (calculateChanges current desired).1,
        key ep ∈ desired.map key ∧ key ep ∉ current.map key) ∧
    (∀ ep ∈ (calculateChanges current desired).2.1,
        key ep ∈ desired.map key ∧ key ep ∈ current.map key) ∧
    (∀ ep ∈ (calculateChanges current desired).2.2,
        key ep ∈ current.map key ∧ key ep ∉ desired.map key) ∧
    (∀ e1 ∈ (calculateChanges current desired).1,
      ∀ e2 ∈ (calculateChanges current desired).2.1, key e1 ≠ key e2) ∧
    (∀ e1 ∈ (calculateChanges current desired).1,
      ∀ e2 ∈ (calculateChanges current desired).2.2, key e1 ≠ key e2) ∧
    (∀ e1 ∈ (calculateChanges current desired).2.1,
      ∀ e2 ∈ (calculateChanges current desired).2.2, key e1 ≠ key e2) := by
  have hcr : ∀ ep ∈ (calculateChanges current desired).1,
      key ep ∈ desired.map key ∧ key ep ∉ current.map key := by
    intro ep h
    rcases calculateChanges_creates_inv current desired ep h with ⟨hd, hc, hk⟩
    exact ⟨List.mem_dedup.mp hk, (mapLookup_eq_none_iff current (key ep)).mp hc⟩
  have hup : ∀ ep ∈ (calculateChanges current desired).2.1,
      key ep ∈ desired.map key ∧ key ep ∈ current.map key := by
    intro ep h
    rcases calculateChanges_updates_inv current desired ep h with ⟨dEp, cEp, _, hc, _, _, hk⟩
    refine ⟨List.mem_dedup.mp hk, ?_⟩
    have := (mapLookup_some_mem current (key ep) cEp hc).1
    have hkey := (mapLookup_some_mem current (key ep) cEp hc).2
    exact hkey ▸ List.mem_map_of_mem key this
  have hde : ∀ ep ∈ (calculateChanges current desired).2.2,
      key ep ∈ current.map key ∧ key ep ∉ desired.map key := by
    intro ep h
    rcases calculateChanges_deletes_inv current desired ep h with ⟨hc, hd, hk⟩
    exact ⟨List.mem_dedup.mp hk, (mapLookup_eq_none_iff desired (key ep)).mp hd⟩
  refine ⟨hcr, hup, hde, ?_, ?_, ?_⟩
  · intro e1 h1 e2 h2 heq
    exact (hcr e1 h1).2 (heq ▸ (hup e2 h2).2)
  · intro e1 h1 e2 h2 heq
    exact (hde e2 h2).2 (heq ▸ (hcr e1 h1).1)
  · intro e1 h1 e2 h2 heq
    exact (hde e2 h2).2 (heq ▸ (hup e1 h1).1)

/-- C5: every endpoint in the updates list of `calculateChanges` carries
the ProviderSpecific identity of the current entry stored in the current
map under the same logical key — never the desired-side one and never a
fabricated one. -/
theorem updates_carry_current_identity (current desired : List Endpoint) (ep : Endpoint)
    (h : ep ∈ (calculateChanges current desired).2.1) :
    ∃ cEp, mapLookup current (key ep) = some cEp ∧ cEp ∈ current ∧
      key cEp = key ep ∧ ep.providerSpecific = cEp.providerSpecific := by
  rcases calculateChanges_updates_inv current desired ep h with ⟨dEp, cEp, _, hc, _, hep, _⟩
  refine ⟨cEp, hc, (mapLookup_some_mem current (key ep) cEp hc).1,
    (mapLookup_some_mem current (key ep) cEp hc).2, ?_⟩
  rw [hep]

/-! ### C2: FQDN resolution -/

/-- C2 counterexample: `ParseFQDN` matches on plain string suffixes, so the
name `notexample.com` IS matched to domain `example.com` although it
neither equals it nor ends with `".example.com"`; the claimed dot-boundary
condition does not hold on the code. -/
theorem parseFQDN_plain_suffix_match :
    (ParseFQDN "notexample.com" ["example.com"]).2 = "example.com" ∧
    "notexample.com" ≠ "example.com" ∧
    hasSuffix "notexample.com" ("." ++ "example.com") = false := by
  decide

/-- C2 (amended): `ParseFQDN` selects a non-empty matched domain `d` only if
the dot-stripped FQDN has `d` as a plain string suffix (dot boundaries are
not enforced), and among all plain-suffix matches it selects the longest;
for domains `{example.com, dev.example.com}` and FQDN `api.dev.example.com`
it returns `(api, dev.example.com)`, while `notexample.com` is matched to
`example.com`. -/
theorem parseFQDN_longest_plain_suffix :
    (∀ fqdn domains host dom, ParseFQDN fqdn domains = (host, dom) → dom ≠ "" →
      dom ∈ domains ∧ hasSuffix (trimSuffix fqdn ".") dom = true ∧
      ∀ d ∈ domains, hasSuffix (trimSuffix fqdn ".") d = true → d.length ≤ dom.length) ∧
    ParseFQDN "api.dev.example.com" ["example.com", "dev.example.com"] =
      ("api", "dev.example.com") ∧
    ParseFQDN "notexample.com" ["example.com"] = ("notexample.com", "example.com") := by
  refine ⟨?_, by decide, by decide⟩
  intro fqdn domains host dom hpf hne
  have hspec := pickDomain_spec (trimSuffix fqdn ".") domains
  simp only [ParseFQDN] at hpf
  by_cases hm : pickDomain (trimSuffix fqdn ".") domains = ""
  · rw [if_pos hm] at hpf
    have h2 : ("" : String) = dom := congrArg Prod.snd hpf
    exact absurd h2.symm hne
  · rw [if_neg hm] at hpf
    have h2 : pickDomain (trimSuffix fqdn ".") domains = dom := by
      by_cases he : trimSuffix fqdn "." = pickDomain (trimSuffix fqdn ".") domains
      · rw [if_pos he] at hpf
        exact congrArg Prod.snd hpf
      · rw [if_neg he] at hpf
        exact congrArg Prod.snd hpf
    subst h2
    rcases hspec.1 with h | h
    · exact absurd h hm
    · exact ⟨h.1, h.2, fun d hd hs => hspec.2 d hd hs⟩

/-- C2 witness: the amended resolver property applied to the concrete FQDN
`www.example.com` and domain list `[example.com]`. -/
theorem parseFQDN_longest_plain_suffix_witness :
    "example.com" ∈ ["example.com"] ∧
    hasSuffix (trimSuffix "www.example.com" ".") "example.com" = true ∧
    (∀ d ∈ ["example.com"], hasSuffix (trimSuffix "www.example.com" ".") d = true →
      d.length ≤ "example.com".length) :=
  parseFQDN_longest_plain_suffix.1 "www.example.com" ["example.com"] "www" "example.com"
    (by decide) (by decide)

/-! ### C4: the endpoint equality relation -/

/-- C4 counterexample: `endpointsEqual` returns true for two endpoints whose
target sets are NOT equal in both directions: `a` has target `2.2.2.2`
which does not occur in `b`, yet the relation accepts the pair (it only
checks that `b`'s targets occur in `a`'s, plus equal lengths). -/
theorem endpointsEqual_one_sided :
    endpointsEqual
      { dnsName := "a.example.com", recordType := "A",
        targets := ["1.1.1.1", "2.2.2.2"], recordTTL := 300, providerSpecific := [] }
      { dnsName := "a.example.com", recordType := "A",
        targets := ["1.1.1.1", "1.1.1.1"], recordTTL := 300, providerSpecific := [] } = true ∧
    "2.2.2.2" ∉ (["1.1.1.1", "1.1.1.1"] : List String) := by
  decide

/-- C4 (amended): `endpointsEqual a b` returns true iff the names and record
types match, the two target lists have equal length, every target of `b`
occurs among the targets of `a` (one-directional containment only), and
the TTLs are exactly equal. -/
theorem endpointsEqual_characterization (a b : Endpoint) :
    endpointsEqual a b = true ↔
      (a.dnsName = b.dnsName ∧ a.recordType = b.recordType ∧
       a.targets.length = b.targets.length ∧
       (∀ t ∈ b.targets, t ∈ a.targets) ∧
       a.recordTTL = b.recordTTL) := by
  unfold endpointsEqual
  by_cases h1 : (a.dnsName != b.dnsName || a.recordType != b.recordType) = true
  · rw [if_pos h1]
    simp only [Bool.or_eq_true, bne_iff_ne, ne_eq] at h1
    constructor
    · intro h; simp at h
    · rintro ⟨e1, e2, _⟩
      rcases h1 with h | h
      · exact absurd e1 h
      · exact absurd e2 h
  · rw [if_neg h1]
    simp only [Bool.or_eq_true, bne_iff_ne, ne_eq, not_or, not_not] at h1
    by_cases h2 : (a.targets.length != b.targets.length) = true
    · rw [if_pos h2]
      simp only [bne_iff_ne, ne_eq] at h2
      constructor
      · intro h; simp at h
      · rintro ⟨_, _, e3, _⟩
        exact absurd e3 h2
    · rw [if_neg h2]
      simp only [bne_iff_ne, ne_eq, not_not] at h2
      by_cases h3 : (b.targets.all fun t => a.targets.contains t) = true
      · rw [if_pos h3]
        simp only [List.all_eq_true] at h3
        constructor
        · intro h
          exact ⟨h1.1, h1.2, h2, fun t ht => List.mem_of_elem_eq_true (h3 t ht),
            beq_iff_eq.mp h⟩
        · rintro ⟨_, _, _, _, e5⟩
          exact beq_iff_eq.mpr e5
      · rw [if_neg h3]
        constructor
        · intro h; simp at h
        · rintro ⟨_, _, _, e4, _⟩
          refine absurd ?_ h3
          rw [List.all_eq_true]
          exact fun t ht => List.elem_eq_true_of_mem (e4 t ht)

/-- C5 witness: in the concrete one-update reconciliation, the update
endpoint carries the ProviderSpecific identity of the current entry. -/
theorem updates_carry_current_identity_witness :
    ∃ cEp, mapLookup [c5cur] (key c5upd) = some cEp ∧ cEp ∈ [c5cur] ∧
      key cEp = key c5upd ∧ c5upd.providerSpecific = cEp.providerSpecific :=
  updates_carry_current_identity [c5cur] [c5des] c5upd (by decide)

/-- C9 witness: in the concrete scenario the create's key occurs among the
desired keys and not among the current keys. -/
theorem calculateChanges_key_partition_witness :
    key c9new ∈ c9des.map key ∧ key c9new ∉ c9cur.map key :=
  (calculateChanges_key_partition c9cur c9des).1 c9new (by decide)

/-! ### C1 (amended) on the reconciler snapshot -/

lemma pairwise_of_rel_total {α : Type} {R : α → α → Prop} (h : ∀ a b, R a b) :
    ∀ l : List α, l.Pairwise R
  | [] => List.Pairwise.nil
  | a :: l => List.Pairwise.cons (fun b _ => h a b) (pairwise_of_rel_total h l)

lemma phaseRank_le_two (p : Phase) : phaseRank p ≤ 2 := by
  cases p <;> simp [phaseRank]

lemma reconcilerSeq_rank_pairwise (current desired : List Endpoint) :
    (reconcilerSeq current desired).Pairwise
      (fun x y => phaseRank x.1 ≤ phaseRank y.1) := by
  unfold reconcilerSeq
  rw [List.pairwise_append, List.pairwise_append]
  refine ⟨⟨?_, ?_, ?_⟩, ?_, ?_⟩
  · rw [List.pairwise_map]
    exact pairwise_of_rel_total (fun a b => le_refl _) _
  · rw [List.pairwise_map]
    exact pairwise_of_rel_total (fun a b => le_refl _) _
  · intro x hx y hy
    rcases List.mem_map.mp hx with ⟨ex, _, rfl⟩
    rcases List.mem_map.mp hy with ⟨ey, _, rfl⟩
    simp [phaseRank]
  · rw [List.pairwise_map]
    exact pairwise_of_rel_total (fun a b => le_refl _) _
  · intro x hx y hy
    rcases List.mem_map.mp hy with ⟨ey, _, rfl⟩
    exact le_trans (phaseRank_le_two _) (by simp [phaseRank])

lemma reconcilerSeq_rank_mono (current desired : List Endpoint) (i j : Nat)
    (hi : i < (reconcilerSeq current desired).length)
    (hj : j < (reconcilerSeq current desired).length) (hij : i < j) :
    phaseRank ((reconcilerSeq current desired).get ⟨i, hi⟩).1 ≤
      phaseRank ((reconcilerSeq current desired).get ⟨j, hj⟩).1 := by
  have hp := reconcilerSeq_rank_pairwise current desired
  rw [List.pairwise_iff_get] at hp
  exact hp ⟨i, hi⟩ ⟨j, hj⟩ hij

/-- C1 (amended): in the reconciler-based `ApplyChanges`
(pkg/simply/client.go), every delete is issued before every update and
every update before every create (positions in the issued sequence respect
the phase order), and in the concrete type-change scenario (current
`A host.example.com`, desired `CNAME host.example.com`) the sequence is
exactly the delete of the old record followed by the create of the new
one.  The array-based `ApplyChanges` in pkg/webhook/handler.go instead
issues creates first — see the counterexample. -/
theorem applyChangesReconciler_phase_order :
    (∀ current desired i j
      (hi : i < (reconcilerSeq current desired).length)
      (hj : j < (reconcilerSeq current desired).length),
      phaseRank ((reconcilerSeq current desired).get ⟨i, hi⟩).1 <
        phaseRank ((reconcilerSeq current desired).get ⟨j, hj⟩).1 → i < j) ∧
    reconcilerSeq [c1curA] [c1desC] = [(Phase.del, c1curA), (Phase.cre, c1desC)] := by
  constructor
  · intro current desired i j hi hj hlt
    by_contra hnot
    have hji : j ≤ i := Nat.le_of_not_lt hnot
    rcases Nat.eq_or_lt_of_le hji with heq | hji
    · subst heq
      exact Nat.lt_irrefl _ hlt
    · have := reconcilerSeq_rank_mono current desired j i hj hi hji
      omega
  · decide

/-- C1 witness: the amended ordering property applied at the type-change
scenario, delete at position 0 and create at position 1. -/
theorem applyChangesReconciler_phase_order_witness :
    (reconcilerSeq [c1curA] [c1desC]).length = 2 ∧ (0 : Nat) < 1 :=
  ⟨by decide,
    applyChangesReconciler_phase_order.1 [c1curA] [c1desC] 0 1
      (by decide) (by decide) (by decide)⟩

/-! ### C7: first failure aborts the apply phase -/

lemma applyLoop_spec (res : Phase → Endpoint → Except String Unit)
    (ops : List (Phase × Endpoint)) (e : String)
    (h : (applyLoop res ops).2 = some e) :
    ∃ i, ∃ hi : i < ops.length,
      res (ops.get ⟨i, hi⟩).1 (ops.get ⟨i, hi⟩).2 = Except.error e ∧
      (∀ j (hj : j < i),
        res (ops.get ⟨j, Nat.lt_trans hj hi⟩).1
            (ops.get ⟨j, Nat.lt_trans hj hi⟩).2 = Except.ok ()) ∧
      (applyLoop res ops).1 = ops.take (i + 1) := by
  induction ops with
  | nil => simp [applyLoop] at h
  | cons op rest ih =>
    cases hr : res op.1 op.2 with
    | error e0 =>
      have he : e0 = e := by
        simp only [applyLoop, hr] at h
        exact Option.some.injEq _ _ ▸ h
      refine ⟨0, Nat.succ_pos _, ?_, ?_, ?_⟩
      · simpa [he] using hr
      · intro j hj
        exact absurd hj (Nat.not_lt_zero j)
      · simp [applyLoop, hr]
    | ok u =>
      have h2 : (applyLoop res rest).2 = some e := by
        simpa [applyLoop, hr] using h
      rcases ih h2 with ⟨i, hi, herr, hpre, htake⟩
      refine ⟨i + 1, Nat.succ_lt_succ hi, ?_, ?_, ?_⟩
      · simpa using herr
      · intro j hj
        cases j with
        | zero => simpa using hr
        | succ j0 =>
          have hj0 : j0 < i := Nat.lt_of_succ_lt_succ hj
          simpa using hpre j0 hj0
      · simp [applyLoop, hr, htake]

/-- C1 counterexample: the array-based `ApplyChanges` of the latest handler
snapshot processes creates FIRST and deletes LAST, so for the type-change
batch the create of the new `CNAME` record is issued before the delete of
the old `A` record — the claimed delete-before-create order is violated. -/
theorem applyChangesWebhook_creates_before_deletes :
    ApplyChangesWebhook c1rm c1changes = some (c1calls, none) ∧
    ¬ deletesPrecedeCreates c1calls := by
  refine ⟨by decide, fun h => ?_⟩
  have := h 1 0 (by decide) (by decide) (by decide) (by decide)
  omega

/-- C6 counterexample: in the array-based `ApplyChanges` of the latest
handler snapshot, a delete whose key has no matching remote record is
skipped (with only a warning) and the rest of the batch continues: the run
reports success and still issues the later delete, instead of failing. -/
theorem applyChangesWebhook_delete_skip :
    lookupRecordMap c6rm ("ghost.example.com" ++ ":" ++ "A") = none ∧
    ApplyChangesWebhook c6rm c6changes =
      some ([SimplyCall.del "example.com" c6recBsent], none) := by
  decide

/-- C6 (amended): an update or delete without a resolvable remote record ID
is a hard error in the reconciler snapshot (`recordID == 0` after the
ProviderSpecific scan) and in part_001's `getRecordID` (property absent),
and an update whose key is missing from the record map fails the batch in
the array-based handler; but a DELETE whose key is missing from the record
map in the array-based handler is skipped with a warning and the batch
continues. -/
theorem identity_error_handling :
    (∀ ep domains, parseRecordID ep.providerSpecific = 0 →
      exceptFailed (deleteEndpointR ep domains) = true ∧
      exceptFailed (updateEndpointR ep domains) = true) ∧
    (∀ ep, ep.providerSpecific.find? (fun p => p.name == "simply-record-id") = none →
      getRecordID ep = Except.error "simply-record-id not found in providerSpecific") ∧
    (∀ recordMap newEp ns oldEp os, hasChangesB oldEp newEp = true →
      lookupRecordMap recordMap (newEp.dnsName ++ ":" ++ newEp.recordType) = none →
      processUpdates recordMap (newEp :: ns) (oldEp :: os) =
        some ([], some ("Record not found: " ++ newEp.dnsName ++ ":" ++ newEp.recordType))) ∧
    ApplyChangesWebhook c6rm c6changes =
      some ([SimplyCall.del "example.com" c6recBsent], none) := by
  refine ⟨?_, ?_, ?_, by decide⟩
  · intro ep domains h0
    constructor
    · by_cases hd : ((ParseFQDN ep.dnsName domains).2 == "") = true
      · simp [deleteEndpointR, hd, exceptFailed]
      · simp [deleteEndpointR, hd, h0, exceptFailed]
    · by_cases hd : ((ParseFQDN ep.dnsName domains).2 == "") = true
      · simp [updateEndpointR, hd, exceptFailed]
      · simp [updateEndpointR, hd, h0, exceptFailed]
  · intro ep hf
    unfold getRecordID
    rw [hf]
  · intro recordMap newEp ns oldEp os h1 h2
    unfold processUpdates
    rw [if_neg (by simp [h1]), h2]

/-- C6 witness: the hard-error half of the amended claim applied to a
concrete endpoint carrying no `simply-record-id` property. -/
theorem identity_error_handling_witness :
    exceptFailed (deleteEndpointR c6noid ["example.com"]) = true ∧
    exceptFailed (updateEndpointR c6noid ["example.com"]) = true :=
  identity_error_handling.1 c6noid ["example.com"] (by decide)

/-! ### C8: default TTL at creation -/

/-- C8: every record `createEndpoint` sends carries the endpoint's TTL when
it is non-zero and the default TTL 3600 when the endpoint's TTL is zero. -/
theorem createEndpoint_default_ttl (ep : Endpoint) (calls : List (String × RecordC))
    (h : createEndpoint ep = Except.ok calls) :
    ∀ c ∈ calls, c.2.ttl = if ep.recordTTL = 0 then DefaultTTL else ep.recordTTL := by
  unfold createEndpoint at h
  cases hd : extractDomain ep.dnsName with
  | error e => rw [hd] at h; simp at h
  | ok domain =>
    rw [hd] at h
    simp only [Except.ok.injEq] at h
    subst h
    intro c hc
    rcases List.mem_map.mp hc with ⟨t, _, rfl⟩
    by_cases h0 : ep.recordTTL = 0
    · simp [h0]
    · have hb : (ep.recordTTL == 0) = false := beq_eq_false_iff_ne.mpr h0
      simp [hb, h0]

/-- C8 witness: the default-TTL property applied to the zero-TTL endpoint,
whose sent record carries TTL 3600. -/
theorem createEndpoint_default_ttl_witness :
    createEndpoint c8ep = Except.ok c8calls ∧
    (∀ c ∈ c8calls, c.2.ttl = if c8ep.recordTTL = 0 then DefaultTTL else c8ep.recordTTL) :=
  ⟨by decide, createEndpoint_default_ttl c8ep c8calls (by decide)⟩

/-- C10: evaluated at an endpoint with no targets, `createEndpoint`
succeeds issuing no remote calls and `updateEndpoint` errors before any
remote call, but `deleteEndpoint` hits the unguarded `ep.Targets[0]` and
faults (the `none` marks the Go index-out-of-range panic). -/
theorem deleteEndpoint_empty_targets_fault :
    deleteEndpoint c10ep 42 = none ∧
    updateEndpoint c10ep 42 = some (Except.error "no targets specified for update") ∧
    createEndpoint c10ep = Except.ok [] := by
  decide

/-- C3 witness: idempotence instantiated at a concrete endpoint set. -/
theorem calculateChanges_self_empty_witness :
    calculateChanges c3S c3S = ([], [], []) :=
  calculateChanges_self_empty c3S

/-- C4 witness: the characterization instantiated at two concrete endpoints
differing only in target order. -/
theorem endpointsEqual_characterization_witness :
    endpointsEqual
      { dnsName := "a.example.com", recordType := "A", targets := ["1.1.1.1", "2.2.2.2"],
        recordTTL := 300, providerSpecific := [] }
      { dnsName := "a.example.com", recordType := "A", targets := ["2.2.2.2", "1.1.1.1"],
        recordTTL := 300, providerSpecific := [] } = true ↔
      ("a.example.com" = "a.example.com" ∧ "A" = "A" ∧
       (["1.1.1.1", "2.2.2.2"] : List String).length =
         (["2.2.2.2", "1.1.1.1"] : List String).length ∧
       (∀ t ∈ (["2.2.2.2", "1.1.1.1"] : List String),
         t ∈ (["1.1.1.1", "2.2.2.2"] : List String)) ∧
       (300 : Int) = 300) :=
  endpointsEqual_characterization
    { dnsName := "a.example.com", recordType := "A", targets := ["1.1.1.1", "2.2.2.2"],
      recordTTL := 300, providerSpecific := [] }
    { dnsName := "a.example.com", recordType := "A", targets := ["2.2.2.2", "1.1.1.1"],
      recordTTL := 300, providerSpecific := [] }


/-! ### First-failure facts about the array-based apply loops -/

lemma mem_dropLast_append {α : Type} {x : α} {l1 l2 : List α}
    (h : x ∈ (l1 ++ l2).dropLast) : x ∈ l1 ∨ x ∈ l2.dropLast := by
  cases l2 with
  | nil =>
    rw [List.append_nil] at h
    exact Or.inl (List.mem_of_mem_dropLast h)
  | cons b bs =>
    rw [List.dropLast_append_cons] at h
    rcases List.mem_append.mp h with h | h
    · exact Or.inl h
    · exact Or.inr h

lemma hasSuffix_append_append (a b t : String) : hasSuffix (a ++ (b ++ t)) t = true := by
  apply List.isSuffixOf_iff_suffix.mpr
  show t.data <:+ (a.data ++ (b.data ++ t.data))
  rw [← List.append_assoc]
  exact List.suffix_append _ _

lemma callLoop_allOk (cs : List SimplyCall) :
    callLoop (fun _ => Except.ok ()) cs = (cs, none) := by
  induction cs with
  | nil => rfl
  | cons c rest ih => simp [callLoop, ih]

lemma callLoop_dropLast_ok (rres : SimplyCall → Except String Unit)
    (cs : List SimplyCall) :
    ∀ c ∈ (callLoop rres cs).1.dropLast, rres c = Except.ok () := by
  induction cs with
  | nil => intro c hc; simp [callLoop] at hc
  | cons c0 rest ih =>
    intro c hc
    cases hr : rres c0 with
    | error e => simp [callLoop, hr] at hc
    | ok u =>
      simp only [callLoop, hr] at hc
      cases h1 : (callLoop rres rest).1 with
      | nil => rw [h1] at hc; simp at hc
      | cons d ds =>
        rw [h1] at hc
        rcases List.mem_cons.mp (by simpa [List.dropLast] using hc) with rfl | hc2
        · cases u; exact hr
        · exact ih c (by rw [h1]; exact hc2)

lemma callLoop_last_error (rres : SimplyCall → Except String Unit)
    (cs : List SimplyCall) :
    ∀ cL e0, (callLoop rres cs).1.getLast? = some cL → rres cL = Except.error e0 →
      (callLoop rres cs).2 = some e0 := by
  induction cs with
  | nil => intro cL e0 h1 h2; simp [callLoop] at h1
  | cons c0 rest ih =>
    intro cL e0 h1 h2
    cases hr : rres c0 with
    | error e =>
      simp only [callLoop, hr] at h1 ⊢
      simp only [List.getLast?_singleton, Option.some.injEq] at h1
      subst h1
      rw [hr] at h2
      injection h2 with he
      rw [he]
    | ok u =>
      simp only [callLoop, hr] at h1 ⊢
      cases hl : (callLoop rres rest).1 with
      | nil =>
        rw [hl] at h1
        simp only [List.getLast?_singleton, Option.some.injEq] at h1
        subst h1
        rw [hr] at h2
        exact Except.noConfusion h2
      | cons d ds =>
        rw [hl] at h1
        rw [List.getLast?_cons_cons] at h1
        exact ih cL e0 (by rw [hl]; exact h1) h2

lemma callLoop_none_ok (rres : SimplyCall → Except String Unit)
    (cs : List SimplyCall) :
    (callLoop rres cs).2 = none → ∀ c ∈ (callLoop rres cs).1, rres c = Except.ok () := by
  induction cs with
  | nil => intro h c hc; simp [callLoop] at hc
  | cons c0 rest ih =>
    intro h c hc
    cases hr : rres c0 with
    | error e => simp [callLoop, hr] at h
    | ok u =>
      simp only [callLoop, hr] at h hc
      rcases List.mem_cons.mp hc with rfl | hc2
      · cases u; exact hr
      · exact ih h c hc2

lemma processCreatesRun_dropLast_ok (rres : SimplyCall → Except String Unit)
    (eps : List Endpoint) :
    ∀ c ∈ (processCreatesRun rres eps).1.dropLast, rres c = Except.ok () := by
  induction eps with
  | nil => intro c hc; simp [processCreatesRun] at hc
  | cons ep rest ih =>
    intro c hc
    cases hce : createEndpoint ep with
    | error e => simp [processCreatesRun, hce] at hc
    | ok recs =>
      rcases hcl : callLoop rres (recs.map fun p => SimplyCall.add p.1 p.2) with ⟨issued, errOpt⟩
      cases errOpt with
      | some e =>
        simp only [processCreatesRun, hce, hcl] at hc
        exact callLoop_dropLast_ok rres _ c (by rw [hcl]; exact hc)
      | none =>
        simp only [processCreatesRun, hce, hcl] at hc
        rcases mem_dropLast_append hc with h1 | h1
        · exact callLoop_none_ok rres _ (by rw [hcl]) c (by rw [hcl]; exact h1)
        · exact ih c h1

lemma processCreatesRun_last_error (rres : SimplyCall → Except String Unit)
    (eps : List Endpoint) :
    ∀ cL e0, (processCreatesRun rres eps).1.getLast? = some cL →
      rres cL = Except.error e0 →
      ∃ e, (processCreatesRun rres eps).2 = some e ∧ hasSuffix e e0 = true := by
  induction eps with
  | nil => intro cL e0 h1 h2; simp [processCreatesRun] at h1
  | cons ep rest ih =>
    intro cL e0 h1 h2
    cases hce : createEndpoint ep with
    | error e => simp [processCreatesRun, hce] at h1
    | ok recs =>
      rcases hcl : callLoop rres (recs.map fun p => SimplyCall.add p.1 p.2) with ⟨issued, errOpt⟩
      cases errOpt with
      | some e =>
        simp only [processCreatesRun, hce, hcl] at h1 ⊢
        have h3 : (callLoop rres (recs.map fun p => SimplyCall.add p.1 p.2)).2 = some e0 :=
          callLoop_last_error rres _ cL e0 (by rw [hcl]; exact h1) h2
        rw [hcl] at h3
        injection h3 with he
        subst he
        exact ⟨_, rfl, hasSuffix_append_append _ _ _⟩
      | none =>
        simp only [processCreatesRun, hce, hcl] at h1 ⊢
        cases hrr : (processCreatesRun rres rest).1 with
        | nil =>
          rw [hrr, List.append_nil] at h1
          have hmem := List.mem_of_mem_getLast? h1
          have hok := callLoop_none_ok rres _ (by rw [hcl]) cL (by rw [hcl]; exact hmem)
          rw [hok] at h2
          exact Except.noConfusion h2
        | cons d ds =>
          rw [hrr] at h1
          rw [List.getLast?_append_of_ne_nil _ (by simp)] at h1
          exact ih cL e0 (by rw [hrr]; exact h1) h2

lemma processCreatesRun_none_ok (rres : SimplyCall → Except String Unit)
    (eps : List Endpoint) :
    (processCreatesRun rres eps).2 = none →
      ∀ c ∈ (processCreatesRun rres eps).1, rres c = Except.ok () := by
  induction eps with
  | nil => intro h c hc; simp [processCreatesRun] at hc
  | cons ep rest ih =>
    intro h c hc
    cases hce : createEndpoint ep with
    | error e => simp [processCreatesRun, hce] at h
    | ok recs =>
      rcases hcl : callLoop rres (recs.map fun p => SimplyCall.add p.1 p.2) with ⟨issued, errOpt⟩
      cases errOpt with
      | some e => simp [processCreatesRun, hce, hcl] at h
      | none =>
        simp only [processCreatesRun, hce, hcl] at h hc
        rcases List.mem_append.mp hc with h1 | h1
        · exact callLoop_none_ok rres _ (by rw [hcl]) c (by rw [hcl]; exact h1)
        · exact ih h c h1

lemma processUpdatesRun_spec (rres : SimplyCall → Except String Unit)
    (recordMap : List (String × RecordC)) :
    ∀ ns os calls err,
      processUpdatesRun rres recordMap ns os = some (calls, err) →
      (∀ c ∈ calls.dropLast, rres c = Except.ok ()) ∧
      (∀ cL e0, calls.getLast? = some cL → rres cL = Except.error e0 →
        ∃ e, err = some e ∧ hasSuffix e e0 = true) ∧
      (err = none → ∀ c ∈ calls, rres c = Except.ok ()) := by
  intro ns
  induction ns with
  | nil =>
    intro os calls err h
    simp only [processUpdatesRun, Option.some.injEq, Prod.mk.injEq] at h
    obtain ⟨h1, h2⟩ := h
    subst h1
    subst h2
    exact ⟨by intro c hc; simp at hc, by intro cL e0 h1 h2; simp at h1,
      by intro _ c hc; simp at hc⟩
  | cons newEp ns ih =>
    intro os calls err h
    cases os with
    | nil => simp [processUpdatesRun] at h
    | cons oldEp os =>
      by_cases hch : hasChangesB oldEp newEp = false
      · simp only [processUpdatesRun, if_pos hch] at h
        exact ih os calls err h
      · simp only [processUpdatesRun, if_neg hch] at h
        cases hlu : lookupRecordMap recordMap (newEp.dnsName ++ ":" ++ newEp.recordType) with
        | none =>
          rw [hlu] at h
          simp only [Option.some.injEq, Prod.mk.injEq] at h
          obtain ⟨h1, h2⟩ := h
          subst h1
          subst h2
          exact ⟨by intro c hc; simp at hc, by intro cL e0 h1 h2; simp at h1,
            by intro hn; simp at hn⟩
        | some existing =>
          rw [hlu] at h
          cases hue : updateEndpoint newEp existing.id with
          | none =>
            simp only [hue] at h
            exact absurd h (by simp)
          | some r =>
            simp only [hue] at h
            cases r with
            | error e =>
              simp only [Option.some.injEq, Prod.mk.injEq] at h
              obtain ⟨h1, h2⟩ := h
              subst h1
              subst h2
              exact ⟨by intro c hc; simp at hc, by intro cL e0 h1 h2; simp at h1,
                by intro hn; simp at hn⟩
            | ok pr =>
              obtain ⟨domain, rec⟩ := pr
              cases hrr : rres (SimplyCall.upd domain rec) with
              | error e =>
                simp only [hrr, Option.some.injEq, Prod.mk.injEq] at h
                obtain ⟨h1, h2⟩ := h
                subst h1
                subst h2
                refine ⟨by intro c hc; simp [List.dropLast] at hc, ?_, by intro hn; simp at hn⟩
                intro cL e0 h1 h2
                simp only [List.getLast?_singleton, Option.some.injEq] at h1
                subst h1
                rw [hrr] at h2
                injection h2 with he
                subst he
                exact ⟨_, rfl, hasSuffix_append_append _ _ _⟩
              | ok u =>
                simp only [hrr] at h
                cases hrec : processUpdatesRun rres recordMap ns os with
                | none =>
                  rw [hrec] at h
                  exact absurd h (by simp)
                | some pr2 =>
                  obtain ⟨cs, err2⟩ := pr2
                  rw [hrec] at h
                  simp only [Option.some.injEq, Prod.mk.injEq] at h
                  obtain ⟨h1, h2⟩ := h
                  subst h1
                  subst h2
                  rcases ih os cs err2 hrec with ⟨ih1, ih2, ih3⟩
                  refine ⟨?_, ?_, ?_⟩
                  · intro c hc
                    cases hcs : cs with
                    | nil => rw [hcs] at hc; simp [List.dropLast] at hc
                    | cons d ds =>
                      rw [hcs] at hc
                      rcases List.mem_cons.mp (by simpa [List.dropLast] using hc) with rfl | hc2
                      · cases u; exact hrr
                      · exact ih1 c (by rw [hcs]; exact hc2)
                  · intro cL e0 h1 h2
                    cases hcs : cs with
                    | nil =>
                      rw [hcs] at h1
                      simp only [List.getLast?_singleton, Option.some.injEq] at h1
                      subst h1
                      rw [hrr] at h2
                      exact Except.noConfusion h2
                    | cons d ds =>
                      rw [hcs] at h1
                      rw [List.getLast?_cons_cons] at h1
                      exact ih2 cL e0 (by rw [hcs]; exact h1) h2
                  · intro hn c hc
                    rcases List.mem_cons.mp hc with rfl | hc2
                    · cases u; exact hrr
                    · exact ih3 hn c hc2

lemma processDeletesRun_spec (rres : SimplyCall → Except String Unit)
    (recordMap : List (String × RecordC)) :
    ∀ eps calls err,
      processDeletesRun rres recordMap eps = some (calls, err) →
      (∀ c ∈ calls.dropLast, rres c = Except.ok ()) ∧
      (∀ cL e0, calls.getLast? = some cL → rres cL = Except.error e0 →
        ∃ e, err = some e ∧ hasSuffix e e0 = true) ∧
      (err = none → ∀ c ∈ calls, rres c = Except.ok ()) := by
  intro eps
  induction eps with
  | nil =>
    intro calls err h
    simp only [processDeletesRun, Option.some.injEq, Prod.mk.injEq] at h
    obtain ⟨h1, h2⟩ := h
    subst h1
    subst h2
    exact ⟨by intro c hc; simp at hc, by intro cL e0 h1 h2; simp at h1,
      by intro _ c hc; simp at hc⟩
  | cons ep rest ih =>
    intro calls err h
    simp only [processDeletesRun] at h
    cases hlu : lookupRecordMap recordMap (ep.dnsName ++ ":" ++ ep.recordType) with
    | none =>
      rw [hlu] at h
      exact ih calls err h
    | some existing =>
      rw [hlu] at h
      cases hde : deleteEndpoint ep existing.id with
      | none =>
        simp only [hde] at h
        exact absurd h (by simp)
      | some r =>
        simp only [hde] at h
        cases r with
        | error e =>
          simp only [Option.some.injEq, Prod.mk.injEq] at h
          obtain ⟨h1, h2⟩ := h
          subst h1
          subst h2
          exact ⟨by intro c hc; simp at hc, by intro cL e0 h1 h2; simp at h1,
            by intro hn; simp at hn⟩
        | ok pr =>
          obtain ⟨domain, rec⟩ := pr
          cases hrr : rres (SimplyCall.del domain rec) with
          | error e =>
            simp only [hrr, Option.some.injEq, Prod.mk.injEq] at h
            obtain ⟨h1, h2⟩ := h
            subst h1
            subst h2
            refine ⟨by intro c hc; simp [List.dropLast] at hc, ?_, by intro hn; simp at hn⟩
            intro cL e0 h1 h2
            simp only [List.getLast?_singleton, Option.some.injEq] at h1
            subst h1
            rw [hrr] at h2
            injection h2 with he
            subst he
            exact ⟨_, rfl, hasSuffix_append_append _ _ _⟩
          | ok u =>
            simp only [hrr] at h
            cases hrec : processDeletesRun rres recordMap rest with
            | none =>
              rw [hrec] at h
              exact absurd h (by simp)
            | some pr2 =>
              obtain ⟨cs, err2⟩ := pr2
              rw [hrec] at h
              simp only [Option.some.injEq, Prod.mk.injEq] at h
              obtain ⟨h1, h2⟩ := h
              subst h1
              subst h2
              rcases ih cs err2 hrec with ⟨ih1, ih2, ih3⟩
              refine ⟨?_, ?_, ?_⟩
              · intro c hc
                cases hcs : cs with
                | nil => rw [hcs] at hc; simp [List.dropLast] at hc
                | cons d ds =>
                  rw [hcs] at hc
                  rcases List.mem_cons.mp (by simpa [List.dropLast] using hc) with rfl | hc2
                  · cases u; exact hrr
                  · exact ih1 c (by rw [hcs]; exact hc2)
              · intro cL e0 h1 h2
                cases hcs : cs with
                | nil =>
                  rw [hcs] at h1
                  simp only [List.getLast?_singleton, Option.some.injEq] at h1
                  subst h1
                  rw [hrr] at h2
                  exact Except.noConfusion h2
                | cons d ds =>
                  rw [hcs] at h1
                  rw [List.getLast?_cons_cons] at h1
                  exact ih2 cL e0 (by rw [hcs]; exact h1) h2
              · intro hn c hc
                rcases List.mem_cons.mp hc with rfl | hc2
                · cases u; exact hrr
                · exact ih3 hn c hc2

lemma processCreatesRun_allOk (eps : List Endpoint) :
    processCreates eps = some (processCreatesRun (fun _ => Except.ok ()) eps) := by
  induction eps with
  | nil => rfl
  | cons ep rest ih =>
    cases hce : createEndpoint ep with
    | error e => simp [processCreates, processCreatesRun, hce]
    | ok recs =>
      simp [processCreates, processCreatesRun, hce, callLoop_allOk, ih]

lemma processUpdatesRun_allOk (recordMap : List (String × RecordC)) :
    ∀ ns os, processUpdatesRun (fun _ => Except.ok ()) recordMap ns os =
      processUpdates recordMap ns os := by
  intro ns
  induction ns with
  | nil => intro os; rfl
  | cons newEp ns ih =>
    intro os
    cases os with
    | nil => rfl
    | cons oldEp os =>
      by_cases hch : hasChangesB oldEp newEp = false
      · simp only [processUpdatesRun, processUpdates, if_pos hch]
        exact ih os
      · simp only [processUpdatesRun, processUpdates, if_neg hch]
        cases hlu : lookupRecordMap recordMap (newEp.dnsName ++ ":" ++ newEp.recordType) with
        | none => simp [hlu]
        | some existing =>
          simp only [hlu]
          cases hue : updateEndpoint newEp existing.id with
          | none => simp [hue]
          | some r =>
            cases r with
            | error e => simp [hue]
            | ok pr =>
              obtain ⟨domain, rec⟩ := pr
              simp [hue, ih os]

lemma processDeletesRun_allOk (recordMap : List (String × RecordC)) :
    ∀ eps, processDeletesRun (fun _ => Except.ok ()) recordMap eps =
      processDeletes recordMap eps := by
  intro eps
  induction eps with
  | nil => rfl
  | cons ep rest ih =>
    simp only [processDeletesRun, processDeletes]
    cases hlu : lookupRecordMap recordMap (ep.dnsName ++ ":" ++ ep.recordType) with
    | none => simp [hlu, ih]
    | some existing =>
      simp only [hlu]
      cases hde : deleteEndpoint ep existing.id with
      | none => simp [hde]
      | some r =>
        cases r with
        | error e => simp [hde]
        | ok pr =>
          obtain ⟨domain, rec⟩ := pr
          simp [hde, ih]

lemma applyChangesWebhookRun_allOk (recordMap : List (String × RecordC))
    (changes : ChangesReq) :
    ApplyChangesWebhookRun (fun _ => Except.ok ()) recordMap changes =
      ApplyChangesWebhook recordMap changes := by
  rcases hpc : processCreatesRun (fun _ => Except.ok ()) changes.create with ⟨cs, cErr⟩
  have hc := processCreatesRun_allOk changes.create
  rw [hpc] at hc
  cases cErr with
  | some e => simp [ApplyChangesWebhookRun, ApplyChangesWebhook, hpc, hc]
  | none =>
    simp [ApplyChangesWebhookRun, ApplyChangesWebhook, hpc, hc,
      processUpdatesRun_allOk recordMap, processDeletesRun_allOk recordMap]

lemma applyChangesWebhookRun_spec (rres : SimplyCall → Except String Unit)
    (recordMap : List (String × RecordC)) (changes : ChangesReq)
    (calls : List SimplyCall) (err : Option String)
    (h : ApplyChangesWebhookRun rres recordMap changes = some (calls, err)) :
    firstFailureAborts rres calls err := by
  unfold firstFailureAborts
  rcases hpc : processCreatesRun rres changes.create with ⟨cs, cErr⟩
  cases cErr with
  | some e =>
    simp only [ApplyChangesWebhookRun, hpc, Option.some.injEq, Prod.mk.injEq] at h
    obtain ⟨h1, h2⟩ := h
    subst h1
    subst h2
    refine ⟨?_, ?_, by intro hn; simp at hn⟩
    · intro c hc
      exact processCreatesRun_dropLast_ok rres changes.create c (by rw [hpc]; exact hc)
    · intro cL e0 h1 h2
      rcases processCreatesRun_last_error rres changes.create cL e0
        (by rw [hpc]; exact h1) h2 with ⟨e', he1, he2⟩
      rw [hpc] at he1
      exact ⟨e', he1, he2⟩
  | none =>
    simp only [ApplyChangesWebhookRun, hpc] at h
    have hcok : ∀ c ∈ cs, rres c = Except.ok () := by
      intro c hc
      exact processCreatesRun_none_ok rres changes.create (by rw [hpc]) c
        (by rw [hpc]; exact hc)
    cases hpu : processUpdatesRun rres recordMap changes.updateNew changes.updateOld with
    | none =>
      rw [hpu] at h
      exact absurd h (by simp)
    | some pu =>
      obtain ⟨us, uErr⟩ := pu
      rw [hpu] at h
      rcases processUpdatesRun_spec rres recordMap changes.updateNew changes.updateOld
        us uErr hpu with ⟨u1, u2, u3⟩
      cases uErr with
      | some e =>
        simp only [Option.some.injEq, Prod.mk.injEq] at h
        obtain ⟨h1, h2⟩ := h
        subst h1
        subst h2
        refine ⟨?_, ?_, by intro hn; simp at hn⟩
        · intro c hc
          rcases mem_dropLast_append hc with h1 | h1
          · exact hcok c h1
          · exact u1 c h1
        · intro cL e0 h1 h2
          cases hus : us with
          | nil =>
            rw [hus, List.append_nil] at h1
            have hmem := List.mem_of_mem_getLast? h1
            rw [hcok cL hmem] at h2
            exact Except.noConfusion h2
          | cons d ds =>
            rw [hus, List.getLast?_append_of_ne_nil _ (by simp)] at h1
            exact u2 cL e0 (by rw [hus]; exact h1) h2
      | none =>
        have huok : ∀ c ∈ us, rres c = Except.ok () := u3 rfl
        cases hpd : processDeletesRun rres recordMap changes.delete with
        | none =>
          rw [hpd] at h
          exact absurd h (by simp)
        | some pd =>
          obtain ⟨ds, dErr⟩ := pd
          rw [hpd] at h
          rcases processDeletesRun_spec rres recordMap changes.delete ds dErr hpd with
            ⟨d1, d2, d3⟩
          have hcuok : ∀ c ∈ cs ++ us, rres c = Except.ok () := by
            intro c hc
            rcases List.mem_append.mp hc with h1 | h1
            · exact hcok c h1
            · exact huok c h1
          cases dErr with
          | some e =>
            simp only [Option.some.injEq, Prod.mk.injEq] at h
            obtain ⟨h1, h2⟩ := h
            subst h1
            subst h2
            refine ⟨?_, ?_, by intro hn; simp at hn⟩
            · intro c hc
              rcases mem_dropLast_append hc with h1 | h1
              · exact hcuok c h1
              · exact d1 c h1
            · intro cL e0 h1 h2
              cases hds : ds with
              | nil =>
                rw [hds, List.append_nil] at h1
                have hmem := List.mem_of_mem_getLast? h1
                rw [hcuok cL hmem] at h2
                exact Except.noConfusion h2
              | cons d0 ds0 =>
                rw [hds, List.getLast?_append_of_ne_nil _ (by simp)] at h1
                exact d2 cL e0 (by rw [hds]; exact h1) h2
          | none =>
            simp only [Option.some.injEq, Prod.mk.injEq] at h
            obtain ⟨h1, h2⟩ := h
            subst h1
            subst h2
            have hall : ∀ c ∈ cs ++ us ++ ds, rres c = Except.ok () := by
              intro c hc
              rcases List.mem_append.mp hc with h1 | h1
              · exact hcuok c h1
              · exact d3 rfl c h1
            refine ⟨?_, ?_, fun _ => hall⟩
            · intro c hc
              exact hall c (List.mem_of_mem_dropLast hc)
            · intro cL e0 h1 h2
              rw [hall cL (List.mem_of_mem_getLast? h1)] at h2
              exact Except.noConfusion h2

/-- C7: in both `ApplyChanges` implementations the first failing operation
aborts the remaining sequence immediately, its error is surfaced, and
operations already applied stay applied.  For the reconciler-based
`ApplyChanges` (pkg/simply/client.go lines 506-538) the issued operations
are exactly the prefix up to and including the first failure, everything
before it succeeded, and that failure's error is the one surfaced.  For
the array-based `ApplyChanges` of the latest handler snapshot
(pkg/webhook/handler.go lines 167-231), run against remote outcomes
`rres`, every issued remote call before the last succeeded (so a failing
call is always the last attempted and nothing after it is issued), a
failing last call's error survives as a suffix of the surfaced error, and
an error-free response means every issued call succeeded
(`firstFailureAborts`). -/
theorem applyChanges_first_error_aborts :
    (∀ (res : Phase → Endpoint → Except String Unit) (current desired : List Endpoint)
      (e : String), (ApplyChangesRun res current desired).2 = some e →
      ∃ i, ∃ hi : i < (reconcilerSeq current desired).length,
        res ((reconcilerSeq current desired).get ⟨i, hi⟩).1
            ((reconcilerSeq current desired).get ⟨i, hi⟩).2 = Except.error e ∧
        (∀ j (hj : j < i),
          res ((reconcilerSeq current desired).get ⟨j, Nat.lt_trans hj hi⟩).1
              ((reconcilerSeq current desired).get ⟨j, Nat.lt_trans hj hi⟩).2 =
            Except.ok ()) ∧
        (ApplyChangesRun res current desired).1 =
          (reconcilerSeq current desired).take (i + 1)) ∧
    (∀ (rres : SimplyCall → Except String Unit)
      (recordMap : List (String × RecordC)) (changes : ChangesReq)
      (calls : List SimplyCall) (err : Option String),
      ApplyChangesWebhookRun rres recordMap changes = some (calls, err) →
      firstFailureAborts rres calls err) :=
  ⟨fun res current desired e h => applyLoop_spec res (reconcilerSeq current desired) e h,
   fun rres recordMap changes calls err h =>
     applyChangesWebhookRun_spec rres recordMap changes calls err h⟩

/-- C7 witness: for the reconciler variant, the failing-update oracle on a
concrete run surfaces the first error and issues exactly the prefix ending
at the failure; for the array-based variant, the failing-delete oracle on
the concrete type-change batch issues the create and the failing delete
(nothing after), surfacing the delete's wrapped error. -/
theorem applyChanges_first_error_aborts_witness :
    ((ApplyChangesRun c7res c7cur c7des).2 = some "boom" ∧
      (∃ i, ∃ hi : i < (reconcilerSeq c7cur c7des).length,
        c7res ((reconcilerSeq c7cur c7des).get ⟨i, hi⟩).1
            ((reconcilerSeq c7cur c7des).get ⟨i, hi⟩).2 = Except.error "boom" ∧
        (∀ j (hj : j < i),
          c7res ((reconcilerSeq c7cur c7des).get ⟨j, Nat.lt_trans hj hi⟩).1
              ((reconcilerSeq c7cur c7des).get ⟨j, Nat.lt_trans hj hi⟩).2 =
            Except.ok ()) ∧
        (ApplyChangesRun c7res c7cur c7des).1 =
          (reconcilerSeq c7cur c7des).take (i + 1))) ∧
    (ApplyChangesWebhookRun c7rres c1rm c1changes =
        some (c1calls, some "Failed to delete record: failed to delete record: remote boom") ∧
      firstFailureAborts c7rres c1calls
        (some "Failed to delete record: failed to delete record: remote boom")) :=
  ⟨⟨by decide, applyChanges_first_error_aborts.1 c7res c7cur c7des "boom" (by decide)⟩,
   ⟨by decide,
    applyChanges_first_error_aborts.2 c7rres c1rm c1changes c1calls
      (some "Failed to delete record: failed to delete record: remote boom") (by decide)⟩⟩
